import Mathlib

/-!
# Verification of the DataPress / SODA / Redbridge CKAN harvester extension

Shallow embedding of `ckanext/datapress_harvester`:

* extras handling from `util/__init__.py` (`remove_extras`,
  `get_package_extra_val`, `upsert_package_extra`, `add_existing_extras`,
  `add_default_extras`);
* the import-stage extras merge of `harvesters/datapress.py` (default extras,
  carried-over extras, baseline defaults, provenance append);
* the gather stages of `harvesters/datapress.py` and
  `harvesters/redbridge.py` (set-difference deletion queue, duplicate
  collapsing, private-dataset filtering);
* normalization helpers of `harvesters/datapress.py` (`strip_time_zone`,
  `fixup_tag`, `normalise_ckan_resources` with its id padding, and the
  `_datapress_to_ckan` pipeline);
* the SODA harvester's content-hash short circuit and `validate_config`
  (`harvesters/soda.py`);
* organization resolution (`harvesters/mixins/__init__.py`).

Python dicts are modelled as association lists operated on at the first
occurrence of a key (parsed JSON objects have unique keys); Python sets of
ids are modelled as `List String` with a `Nodup` hypothesis; fallible code
returns `Except String`.
-/

namespace DflHarvester

/-! ## Extras: `util/__init__.py`

A CKAN package extra is the dict `{"key": k, "value": v}`; a package's
extras field is a list of such dicts.  We model one extra as a pair. -/

abbrev Extra := String × String

/-- `util.remove_extras`: return a new list of extras with the given keys
removed. -/
def remove_extras (extras : List Extra) (keys : List String) : List Extra :=
  extras.filter (fun e => !(keys.contains e.1))

/-- `util.get_package_extra_val`: the value stored for `key`, or `None`
if the key does not occur. -/
def get_package_extra_val (extras : List Extra) (key : String) : Option String :=
  (extras.find? (fun e => e.1 == key)).map (fun e => e.2)

/-- `util.upsert_package_extra`: update the value of the first extra whose
key matches, appending a new entry when the key is absent. -/
def upsert_package_extra : List Extra → String → String → List Extra
  | [], key, val => [(key, val)]
  | e :: es, key, val =>
    if e.1 = key then (key, val) :: es else e :: upsert_package_extra es key val

/-- The keys excluded from the carry-over in `util.add_existing_extras`
("These extras keys *should* be updated on every run of the harvester"). -/
def refresh_keys : List String :=
  ["upstream_metadata_created", "upstream_metadata_modified", "upstream_url",
   "harvest_object_id", "harvest_source_id", "harvest_source_title",
   "london_smallest_geography", "update_frequency", "notes_with_markup"]

/-- `util.add_existing_extras`: carry over the non-volatile extras of the
already-stored package (when it exists) into the package being imported,
upserting each one.  `existingPkgExtras = none` models the
`package_show` lookup failing (no extras to transfer). -/
def add_existing_extras (existingPkgExtras : Option (List Extra))
    (extras : List Extra) : List Extra :=
  let toTransfer : List Extra :=
    match existingPkgExtras with
    | some es => remove_extras es refresh_keys
    | none => []
  toTransfer.foldl (fun acc e => upsert_package_extra acc e.1 e.2) extras

/-- `util.add_default_extras`: append empty `data_quality` and a
`dataset_boost` of 1.0 when these keys are absent. -/
def add_default_extras (extras : List Extra) : List Extra :=
  let extras' :=
    if get_package_extra_val extras "data_quality" = none then
      extras ++ [("data_quality", "")]
    else extras
  if get_package_extra_val extras' "dataset_boost" = none then
    extras' ++ [("dataset_boost", "1.0")]
  else extras'

/-! ## The DataPress import-stage extras merge
(`DataPressHarvester.import_stage`, datapress.py lines 691-748). -/

/-- The local `get_extra` helper of `import_stage`: first extra with the
given key. -/
def get_extra (key : String) (extras : List Extra) : Option Extra :=
  extras.find? (fun e => e.1 == key)

/-- One iteration of the `default_extras` loop of `import_stage`: when the
key already exists it is skipped (unless `override_extras` is set, in which
case the old entry is removed), then the formatted default is appended.
`fmt` models the `str.format` placeholder substitution. -/
def apply_default_extra (overrideExtras : Bool) (fmt : String → String)
    (extras : List Extra) (kv : String × String) : List Extra :=
  match get_extra kv.1 extras with
  | some e =>
    if overrideExtras then (extras.erase e) ++ [(kv.1, fmt kv.2)] else extras
  | none => extras ++ [(kv.1, fmt kv.2)]

/-- The whole `default_extras` loop. -/
def apply_default_extras (overrideExtras : Bool) (fmt : String → String)
    (defaults : List (String × String)) (extras : List Extra) : List Extra :=
  defaults.foldl (apply_default_extra overrideExtras fmt) extras

/-- The three provenance extras appended (with a plain list append, not an
upsert) at the end of the merge. -/
def provenance_extras (upstreamUrl modified created : String) : List Extra :=
  [("upstream_url", upstreamUrl),
   ("upstream_metadata_modified", modified),
   ("upstream_metadata_created", created)]

/-- The import-stage extras merge of `DataPressHarvester.import_stage` in
source order: configured default extras, carried-over existing extras,
baseline defaults (`add_default_extras`), then the provenance append. -/
def import_stage_extras_merge (overrideExtras : Bool) (fmt : String → String)
    (defaults : List (String × String)) (existingPkgExtras : Option (List Extra))
    (upstreamUrl modified created : String) (extras : List Extra) : List Extra :=
  (add_default_extras
    (add_existing_extras existingPkgExtras
      (apply_default_extras overrideExtras fmt defaults extras)))
  ++ provenance_extras upstreamUrl modified created

/-! ## Gather stages

`DataPressHarvester.gather_stage` (datapress.py lines 251-307) and
`RedbridgeHarvester.gather_stage` (redbridge.py lines 141-170).  A fetched
upstream package is modelled by its id, its name and its private flag (the
only fields the gather loops inspect); the harvest objects created are
modelled as work items carrying the guid, the action tag and, for upserts,
the fetched package. -/

/-- A fetched upstream package dict, restricted to the fields the gather
loops read.  `priv` models the `"private"` field (a Lean keyword). -/
structure Pkg where
  id : String
  name : String
  priv : Bool
  deriving DecidableEq, Repr

/-- The `"action"` tag stored in a harvest object's content. -/
inductive HAction where
  | upsert
  | delete
  deriving DecidableEq, Repr

/-- A saved `HarvestObject`: guid, action and (for upserts) the package. -/
structure WorkItem where
  guid : String
  action : HAction
  content : Option Pkg
  deriving DecidableEq, Repr

/-- The upsert-creation loop of `DataPressHarvester.gather_stage`: private
datasets are discarded unless `harvest_private_datasets` is configured, a
package whose id was already seen (`package_ids`) is discarded, and every
other package gets one upsert harvest object, its id being added to the
seen set. -/
def gather_upserts (harvestPrivate : Bool) : List Pkg → List String → List WorkItem
  | [], _seen => []
  | p :: ps, seen =>
    if p.priv ∧ ¬ harvestPrivate then gather_upserts harvestPrivate ps seen
    else if p.id ∈ seen then gather_upserts harvestPrivate ps seen
    else { guid := p.id, action := .upsert, content := some p }
           :: gather_upserts harvestPrivate ps (p.id :: seen)

/-- The deletion loop shared by both gather stages: one delete harvest
object per element of `existing_dataset_ids - fetched_ids`.  The existing
ids (a Python set) are a `Nodup` list; the fetched ids may repeat. -/
def gather_deletes (existing : List String) (fetchedIds : List String) : List WorkItem :=
  (existing.filter (fun i => !(fetchedIds.contains i))).map
    (fun i => { guid := i, action := .delete, content := none })

/-- `DataPressHarvester.gather_stage`: upsert objects followed by delete
objects, in source order. -/
def datapress_gather_objects (harvestPrivate : Bool) (pkgs : List Pkg)
    (existing : List String) : List WorkItem :=
  gather_upserts harvestPrivate pkgs [] ++ gather_deletes existing (pkgs.map Pkg.id)

/-- `RedbridgeHarvester.gather_stage`: one upsert object per fetched
package (no private or duplicate filtering), then the delete objects. -/
def redbridge_gather_objects (pkgs : List Pkg) (existing : List String) : List WorkItem :=
  pkgs.map (fun p => { guid := p.id, action := .upsert, content := some p })
  ++ gather_deletes existing (pkgs.map Pkg.id)

/-! ## `strip_time_zone` (datapress.py lines 802-803)

`re.sub(r"Z|([+-]\d\d:?(\d\d)?)$", "", iso_timestamp)`: the scan removes
every `Z` (the first alternative is not anchored) and a trailing
`[+-]\d\d:?(\d\d)?` offset anchored at `$`.  `$` matches at the end of the
string or just before a final newline; `\d` is modelled as an ASCII digit
(timestamps are ASCII).  An offset match always ends at `$`, so after it
the scan only ever revisits an empty remainder or a final newline, neither
of which can match; the remainder is therefore emitted unchanged. -/

/-- ASCII decimal digit, the relevant case of the regex class `\d`. -/
def isPyDigit (c : Char) : Bool := '0' ≤ c && c ≤ '9'

/-- Where `$` matches: at the end, or just before a final newline.
Returns the characters after the anchor point. -/
def dollarRest : List Char → Option (List Char)
  | [] => some []
  | [c] => if c = '\n' then some [c] else none
  | _ => none

/-- Alternation with the left preference of the regex engine. -/
def orSome {α : Type} (a b : Option α) : Option α :=
  match a with
  | some x => some x
  | none => b

/-- Match `:?(\d\d)?$` with the greedy backtracking order of the regex
engine: `:` plus two digits, `:` alone, two digits, then nothing. -/
def offsetTailRest (l : List Char) : Option (List Char) :=
  orSome
    (match l with
     | ':' :: d1 :: d2 :: rest =>
       if isPyDigit d1 ∧ isPyDigit d2 then dollarRest rest else none
     | _ => none)
    (orSome
      (match l with
       | ':' :: rest => dollarRest rest
       | _ => none)
      (orSome
        (match l with
         | d1 :: d2 :: rest =>
           if isPyDigit d1 ∧ isPyDigit d2 then dollarRest rest else none
         | _ => none)
        (dollarRest l)))

/-- Match `[+-]\d\d:?(\d\d)?$` at the head of `l`, returning the characters
after the anchor (`[]`, or a kept final newline). -/
def offsetMatch : List Char → Option (List Char)
  | s :: d1 :: d2 :: rest =>
    if (s = '+' ∨ s = '-') ∧ isPyDigit d1 ∧ isPyDigit d2 then offsetTailRest rest
    else none
  | _ => none

/-- The left-to-right scan of `re.sub`: at each position try `Z` first,
then the `$`-anchored offset; on failure keep the character.  A successful
offset match consumes everything up to the anchor, and the remainder (at
most a final newline, on which neither alternative can match) is emitted
unchanged. -/
def stripTZAux : List Char → List Char
  | [] => []
  | c :: rest =>
    if c = 'Z' then stripTZAux rest
    else
      match offsetMatch (c :: rest) with
      | some remaining => remaining
      | none => c :: stripTZAux rest

/-- `strip_time_zone` (datapress.py line 802). -/
def strip_time_zone (isoTimestamp : String) : String :=
  String.mk (stripTZAux isoTimestamp.data)

/-! ## `fixup_tag` (datapress.py lines 446-448)

`re.sub("[^a-zA-Z0-9 \-_.]", "", tag)` deletes every character outside the
class; substituting a character class by the empty string is a filter. -/

/-- The allowed tag alphabet `[a-zA-Z0-9 \-_.]`. -/
def isAllowedTagChar (c : Char) : Bool :=
  ('a' ≤ c && c ≤ 'z') || ('A' ≤ c && c ≤ 'Z') || ('0' ≤ c && c ≤ '9') ||
  c == ' ' || c == '-' || c == '_' || c == '.'

/-- The cleaned tag text computed by `fixup_tag` before it is wrapped in
`{'name': new_tag}`. -/
def fixup_tag_name (tag : String) : String :=
  String.mk (tag.data.filter isAllowedTagChar)

/-! ## Resource id padding (`normalise_ckan_resources`, datapress.py 28-47) -/

/-- Python `str.rjust(width, fill)`: pad on the left up to `width`;
a string at least `width` long is returned unchanged. -/
def rjust (s : String) (width : Nat) (fill : Char) : String :=
  if width ≤ s.length then s
  else String.mk (List.replicate (width - s.length) fill ++ s.data)

/-! ## Python values and dicts

JSON-shaped Python values, for the package dicts the DataPress import
stage manipulates.  A dict is an association list; parsed JSON objects
have unique keys, and all operations work on the first occurrence of a
key. -/

inductive PVal where
  | null : PVal
  | str : String → PVal
  | num : Int → PVal
  | arr : List PVal → PVal
  | obj : List (String × PVal) → PVal

abbrev PDict := List (String × PVal)

/-- `d.get(k)` / `d[k]` lookup result: first entry with key `k`. -/
def dget (d : PDict) (k : String) : Option PVal :=
  (d.find? (fun kv => kv.1 == k)).map (fun kv => kv.2)

/-- `d[k] = v`: replace the value of the first entry with key `k`, or
append the new key at the end (dict insertion order). -/
def dset : PDict → String → PVal → PDict
  | [], k, v => [(k, v)]
  | kv :: rest, k, v =>
    if kv.1 = k then (k, v) :: rest else kv :: dset rest k v

/-- `del d[k]`: `none` models the `KeyError` on an absent key. -/
def ddel (d : PDict) (k : String) : Option PDict :=
  match dget d k with
  | none => none
  | some _ => some (d.eraseP (fun kv => kv.1 == k))

/-- Is a value the JSON null (Python `None`)? -/
def isNull : PVal → Bool
  | .null => true
  | _ => false

/-- Python truthiness of the modelled values. -/
def pyTruthy : PVal → Bool
  | .null => false
  | .str s => !(s == "")
  | .num n => !(n == 0)
  | .arr l => !l.isEmpty
  | .obj o => !o.isEmpty

/-- Truthiness of a `d.get(k)` result (`None` when the key is absent). -/
def pyTruthyOpt : Option PVal → Bool
  | some v => pyTruthy v
  | none => false

/-- The ASCII whitespace stripped by Python `str.strip()`. -/
def isPySpace (c : Char) : Bool :=
  c == ' ' || c == '\t' || c == '\n' || c == '\r' || c == '\x0b' || c == '\x0c'

/-- Python `str.strip()` (ASCII whitespace; the harvested emails are
ASCII). -/
def pyStrip (s : String) : String :=
  String.mk (((s.data.dropWhile isPySpace).reverse.dropWhile isPySpace).reverse)

/-- Python `str(v)` as used in f-string interpolation.  Containers are
given a shallow placeholder rendering; no claim depends on it. -/
def pyStr : PVal → String
  | .null => "None"
  | .str s => s
  | .num n => toString n
  | .arr _ => "[...]"
  | .obj _ => "\x7b...\x7d"

/-- Python iteration treated as producing strings: a list yields its
elements (which must be strings for the uses below, else `TypeError`
downstream), a string yields its characters, a dict yields its keys. -/
def pyIterStrings : PVal → Except String (List String)
  | .arr l =>
    l.mapM (fun v =>
      match v with
      | .str s => .ok s
      | _ => .error "TypeError: expected str")
  | .str s => .ok (s.data.map (fun c => String.mk [c]))
  | .obj o => .ok (o.map (fun kv => kv.1))
  | _ => .error "TypeError: not iterable"

/-! ## `normalise_ckan_resources` (datapress.py lines 28-47) -/

/-- The `fixup_id` closure: pad the resource id to at least 7 characters
with zeros.  A missing id is a `KeyError`; `rjust` on a non-string is a
`TypeError`; a non-dict resource fails on its first subscript. -/
def fixup_id (res : PVal) : Except String PVal :=
  match res with
  | .obj r =>
    match dget r "id" with
    | some (.str inputId) => .ok (.obj (dset r "id" (.str (rjust inputId 7 '0'))))
    | some _ => .error "TypeError: rjust"
    | none => .error "KeyError: id"
  | _ => .error "TypeError: resource is not a dict"

/-- `normalise_ckan_resources`: take the resources from the package, or
from `organization/resources` when the former is falsy and the latter
truthy (the brent/barnet shape), apply `fixup_id` to each, and store the
result under `resources`. -/
def normalise_ckan_resources (pkg : PDict) : Except String PDict := do
  let rv := (dget pkg "resources").getD (.arr [])
  let chosen ←
    if ¬ pyTruthyOpt (dget pkg "resources") then do
      let orgRes ←
        match dget pkg "organization" with
        | none => pure (PVal.arr [])
        | some (.obj o) => pure ((dget o "resources").getD (.arr []))
        | some _ => Except.error "AttributeError: get"
      pure (if pyTruthy orgRes then orgRes else rv)
    else pure rv
  let rs2 ←
    match chosen with
    | .arr rs => rs.mapM fixup_id
    | .obj [] => pure []
    | .str "" => pure []
    | _ => Except.error "TypeError: resource is not a dict"
  return dset pkg "resources" (.arr rs2)

/-! ## `_datapress_to_ckan` (datapress.py lines 434-536)

The external collaborators of the function (urllib percent-encoding, the
CKAN organization name validator, the format probe over HTTP and the
urllib-based `_resource_format_from_url`) are black-box parameters, per
the interface boundary of the spec. -/

structure DatapressExt where
  /-- `urllib.parse.quote(s, safe="@")`, used on emails. -/
  quoteSafeAt : String → String
  /-- `urllib.parse.quote(s)`, used on resource file names. -/
  quotePlain : String → String
  /-- `validators.name_validator` succeeding (no `Invalid` raised). -/
  nameValidatorOk : PVal → Bool
  /-- `self._resource_format_from_url` (urllib URL parsing). -/
  formatFromUrl : String → String
  /-- `self._guess_image_format` (live content-type probe). -/
  guessImageFormat : String → String

/-- The top-level None-stripping pass (`# Remove Nones`): delete every
key whose value is `None`. -/
def removeNones (d : PDict) : PDict :=
  d.filter (fun kv => !(isNull kv.2))

/-- The tags pass: when `package_dict.get('tags')` is truthy, map
`fixup_tag` over it, wrapping each cleaned tag as `{'name': new_tag}`. -/
def step_tags (pkg : PDict) : Except String PDict :=
  if pyTruthyOpt (dget pkg "tags") then
    match dget pkg "tags" with
    | some v => do
      let ts ← pyIterStrings v
      .ok (dset pkg "tags"
        (.arr (ts.map (fun t => .obj [("name", .str (fixup_tag_name t))]))))
    | none => .ok pkg
  else .ok pkg

/-- One email pass: when the key is present, strip and percent-encode
(preserving `@`).  `.strip()` on a non-string is an `AttributeError`. -/
def step_email (key : String) (quoteSafeAt : String → String)
    (pkg : PDict) : Except String PDict :=
  match dget pkg key with
  | none => .ok pkg
  | some (.str s) => .ok (dset pkg key (.str (quoteSafeAt (pyStrip s))))
  | some _ => .error "AttributeError: strip"

/-- The organization pass: when an organization is present and its name
fails validation, its name is replaced by its id. -/
def step_org (nameValidatorOk : PVal → Bool) (pkg : PDict) :
    Except String PDict :=
  match dget pkg "organization" with
  | none => .ok pkg
  | some (.obj o) =>
    match dget o "name" with
    | none => .error "KeyError: name"
    | some n =>
      if nameValidatorOk n then .ok pkg
      else
        match dget o "id" with
        | none => .error "KeyError: id"
        | some oid => .ok (dset pkg "organization" (.obj (dset o "name" oid)))
  | some _ => .error "TypeError: organization is not a dict"

/-- The keys CKAN expects as empty strings rather than absent. -/
def datapress_default_keys : List String :=
  ["author", "author_email", "license_id", "license_title", "url", "version"]

/-- Fill each absent default key with the empty string. -/
def step_default_keys (pkg : PDict) : PDict :=
  datapress_default_keys.foldl
    (fun d k => if (dget d k).isSome then d else dset d k (.str "")) pkg

/-- The known-broken storage prefix that triggers the URL rewrite. -/
def airdriveBrokenStorage : String := "https://airdrive-secure.s3-eu-west-1"

/-- The body of the per-resource loop: strip `None` fields, truncate
`created` to the date, rewrite known-broken storage URLs from the package
name, resource id, quoted resource name and format, infer a missing or
falsy format from the URL, and resolve a literal `image` format with the
content-type probe.  `pkgName` is `package_dict["name"]`, read only on the
rewrite path (`KeyError` when absent there). -/
def step_resource (ext : DatapressExt) (pkgName : Option PVal) :
    PVal → Except String PVal
  | .obj r0 => do
    let r := removeNones r0
    let r ←
      match dget r "created" with
      | none => pure r
      | some (.str s) => pure (dset r "created" (.str (String.mk (s.data.take 10))))
      | some (.arr l) => pure (dset r "created" (.arr (l.take 10)))
      | some _ => Except.error "TypeError: created is not sliceable"
    match dget r "url" with
    | none => Except.error "KeyError: url"
    | some (.str url0) => do
      let (r, url) ←
        if url0.startsWith airdriveBrokenStorage then do
          let dataset ←
            match pkgName with
            | none => Except.error "KeyError: name"
            | some v => pure (pyStr v)
          let rid ←
            match dget r "id" with
            | none => Except.error "KeyError: id"
            | some v => pure (pyStr v)
          let file ←
            match dget r "name" with
            | none => Except.error "KeyError: name"
            | some (.str s) => pure (ext.quotePlain s)
            | some _ => Except.error "TypeError: quote"
          let fmt ←
            match dget r "format" with
            | none => Except.error "KeyError: format"
            | some v => pure (pyStr v)
          let newUrl :=
            "https://data.london.gov.uk/download/" ++ dataset ++ "/" ++ rid
              ++ "/" ++ file ++ "." ++ fmt
          pure (dset r "url" (.str newUrl), newUrl)
        else pure (r, url0)
      let r :=
        if pyTruthyOpt (dget r "format") then r
        else dset r "format" (.str (ext.formatFromUrl url))
      let r :=
        match dget r "format" with
        | some (.str "image") => dset r "format" (.str (ext.guessImageFormat url))
        | _ => r
      return .obj r
    | some _ => Except.error "AttributeError: startswith"
  | _ => .error "TypeError: resource is not a dict"

/-- The resources pass: run the loop body over
`package_dict.get("resources", [])`. -/
def step_resources (ext : DatapressExt) (pkg : PDict) : Except String PDict :=
  match dget pkg "resources" with
  | none => .ok pkg
  | some (.arr rs) => do
    let rs2 ← rs.mapM (step_resource ext (dget pkg "name"))
    .ok (dset pkg "resources" (.arr rs2))
  | some (.str s) =>
    if s = "" then .ok pkg else .error "TypeError: resource is not a dict"
  | some (.obj o) =>
    if o.isEmpty then .ok pkg else .error "TypeError: resource is not a dict"
  | some _ => .error "TypeError: not iterable"

/-- Strip the timezone of a mandatory timestamp field: an absent key is a
`KeyError`, a non-string value a `TypeError` inside `re.sub`. -/
def step_strip_tz (key : String) (pkg : PDict) : Except String PDict :=
  match dget pkg key with
  | none => .error ("KeyError: " ++ key)
  | some (.str s) => .ok (dset pkg key (.str (strip_time_zone s)))
  | some _ => .error "TypeError: expected string or bytes-like object"

/-- Every pass of `_datapress_to_ckan` before the final
`del package_dict["state"]`, in source order. -/
def datapress_normalize_steps (ext : DatapressExt) (pkg : PDict) :
    Except String PDict := do
  let pkg := removeNones pkg
  let pkg ← step_tags pkg
  let pkg ← step_email "author_email" ext.quoteSafeAt pkg
  let pkg ← step_email "maintainer_email" ext.quoteSafeAt pkg
  let pkg ← step_org ext.nameValidatorOk pkg
  let pkg := step_default_keys pkg
  let pkg ← step_resources ext pkg
  let pkg ← step_strip_tz "metadata_modified" pkg
  let pkg ← step_strip_tz "metadata_created" pkg
  return pkg

/-- `_datapress_to_ckan`: the passes above followed by the unconditional
`del package_dict["state"]`, which raises `KeyError` when the key is
absent. -/
def datapress_to_ckan (ext : DatapressExt) (pkg : PDict) :
    Except String PDict := do
  let p ← datapress_normalize_steps ext pkg
  match ddel p "state" with
  | none => Except.error "KeyError: state"
  | some p2 => return p2

/-- Outcome of the import stage around the normalization call: the
`except Exception` handler of `import_stage` (datapress.py lines 782-784)
records any normalization failure as an object error; otherwise the rest
of the import stage (`rest`, kept abstract) runs on the normalized dict. -/
inductive ImportOutcome (α : Type) where
  | objectError (msg : String)
  | proceeded (a : α)

/-- `import_stage` from the `_datapress_to_ckan` call onward, with the
remainder of the stage abstracted as `rest`. -/
def datapress_import_after_normalize {α : Type} (ext : DatapressExt)
    (rest : PDict → α) (pkg : PDict) : ImportOutcome α :=
  match datapress_to_ckan ext pkg with
  | .error e => .objectError e
  | .ok p => .proceeded (rest p)

/-! ## SODA harvester (`harvesters/soda.py`) -/

/-- Outcome of the `"update"` branch of `SODAHarvester.import_stage`. -/
inductive SodaOutcome where
  | unchanged
  | written (finalExtras : List Extra)
  | importError (msg : String)
  deriving DecidableEq, Repr

/-- The `"update"` branch of `SODAHarvester.import_stage` (soda.py lines
296-321): look up the existing dataset (`none` models `package_show`
raising, caught by the `except` handler), compare its stored
`content_hash` extra with the hash carried by the work item, and either
report `"unchanged"` without writing, or build the merged extras
(`add_existing_extras`, then upserts of `content_hash` and
`harvest_source_frequency`) and write. -/
def soda_import_update (existingExtras : Option (List Extra))
    (importedHash frequency : String) : SodaOutcome :=
  match existingExtras with
  | none => .importError "Error modifying existing dataset"
  | some exExtras =>
    if get_package_extra_val exExtras "content_hash" = some importedHash then
      .unchanged
    else
      let merged := add_existing_extras (some exExtras) exExtras
      let merged := upsert_package_extra merged "content_hash" importedHash
      let merged := upsert_package_extra merged "harvest_source_frequency" frequency
      .written merged

/-- A JSON string literal (the configurations below need no escapes). -/
def json_quote (s : String) : String := "\"" ++ s ++ "\""

/-- Serialize a flat object of string fields to its JSON text, tying a
parsed configuration object to the raw configuration string that
`validate_config` receives. -/
def json_object_string (obj : List (String × String)) : String :=
  "\x7b" ++ String.intercalate ", "
    (obj.map (fun kv => json_quote kv.1 ++ ": " ++ json_quote kv.2)) ++ "\x7d"

/-- Does the parsed object have the field? -/
def obj_has_key (obj : List (String × String)) (k : String) : Bool :=
  obj.any (fun kv => kv.1 == k)

/-- Is `needle` a contiguous run of `haystack`?  Python substring
containment (`needle in haystack` on strings). -/
def listContainsSub (needle : List Char) : List Char → Bool
  | [] => needle.isEmpty
  | x :: xs => needle.isPrefixOf (x :: xs) || listContainsSub needle xs

/-- Python `needle in haystack` on strings. -/
def py_str_in (needle haystack : String) : Bool :=
  listContainsSub needle.data haystack.data

/-- `SODAHarvester.validate_config` (soda.py lines 85-89).  The source
parses the configuration (`json.loads`, assumed to succeed on the
well-formed inputs considered here) into `source_config_obj`, but the
membership test `"app_token" not in source_config` is performed on the
raw configuration STRING, where `in` is a substring test; the parsed
object is never used. -/
def validate_config_soda (sourceConfig : String) : Except String String :=
  if py_str_in "app_token" sourceConfig then .ok sourceConfig
  else .error "No application token provided in the app_token field"

/-! ## Organization resolution (`harvesters/mixins/__init__.py`) -/

/-- A catalog organization. -/
structure Org where
  id : String
  name : String
  title : String
  deriving DecidableEq, Repr

/-- One row of the override table built from
`organisation_mappings.csv`: override name and override title. -/
structure OrgMapping where
  name : String
  title : String
  deriving DecidableEq, Repr

/-- An organization payload sent to `organization_create`, after the
server-managed keys (`packages`, `created`, `users`, ...) are popped. -/
structure OrgPayload where
  name : String
  title : String
  extras : List Extra
  deriving DecidableEq, Repr

/-- The catalog collaborator `organization_show`: finds an organization
by id or by name, `none` modelling `NotFound`. -/
def organization_show (catalog : List Org) (ref : String) : Option Org :=
  catalog.find? (fun o => o.id == ref || o.name == ref)

/-- `canonicalise_org_to_name` (mixins lines 33-38): the stored name of
the organization when the reference resolves, else the input itself. -/
def canonicalise_org_to_name (catalog : List Org) (orgNameOrId : String) : String :=
  match organization_show catalog orgNameOrId with
  | some org => org.name
  | none => orgNameOrId

/-- `PROVIDER_ORG_MAPPINGS.get(source_name, {}).get(org_name)`. -/
def provider_org_mappings_lookup
    (mappings : List (String × List (String × OrgMapping)))
    (sourceName orgName : String) : Option OrgMapping :=
  match mappings.find? (fun e => e.1 == sourceName) with
  | none => none
  | some e => (e.2.find? (fun x => x.1 == orgName)).map (fun x => x.2)

/-- The id `organization_show` is called with in
`get_mapped_organization` (mixins line 53): the override name when a
mapping fired, else the canonicalised name. -/
def mapped_lookup_id (catalog : List Org)
    (mappings : List (String × List (String × OrgMapping)))
    (sourceName organizationId : String) : String :=
  let orgName := canonicalise_org_to_name catalog organizationId
  match provider_org_mappings_lookup mappings sourceName orgName with
  | some m => m.name
  | none => orgName

/-- Result of `DFLHarvesterMixin.get_mapped_organization`: the id of an
organization found in the catalog, a creation request (whose new id is
assigned by the catalog), or the original unresolved reference. -/
inductive OrgResolution where
  | found (orgId : String)
  | created (payload : OrgPayload)
  | fallback (original : String)
  deriving DecidableEq, Repr

/-- `DFLHarvesterMixin.get_mapped_organization` (mixins lines 41-101):
canonicalise the reference, consult the override table, look the result
up in the catalog; on `NotFound` either build and create an organization
payload (when `remote_orgs == "create"`) or fall back to the original
reference. -/
def get_mapped_organization (catalog : List Org)
    (mappings : List (String × List (String × OrgMapping)))
    (sourceName organizationId : String) (remoteOrgs : Option String)
    (packageOrganization : Option OrgPayload) (packageOrgName : Option String)
    (orgLink : Option String) : OrgResolution :=
  let orgName := canonicalise_org_to_name catalog organizationId
  let mappedOrg := provider_org_mappings_lookup mappings sourceName orgName
  match organization_show catalog (mapped_lookup_id catalog mappings sourceName organizationId) with
  | some org => .found org.id
  | none =>
    if remoteOrgs = some "create" then
      let org0 : OrgPayload :=
        match packageOrganization with
        | some o => o
        | none => { name := orgName, title := packageOrgName.getD orgName, extras := [] }
      let org1 : OrgPayload :=
        match mappedOrg with
        | some m =>
          { org0 with
            title := if m.title ≠ "" then m.title else m.name,
            name := m.name }
        | none => org0
      let org2 : OrgPayload :=
        match orgLink with
        | some link => { org1 with extras := [("Website", link)] }
        | none => org1
      .created org2
    else .fallback organizationId

/-! # Helper lemmas -/

theorem orSome_eq_some {α : Type} {a b : Option α} {c : α}
    (h : orSome a b = some c) : a = some c ∨ b = some c := by
  cases a with
  | none => right; simpa [orSome] using h
  | some x => left; simpa [orSome] using h

theorem dollarRest_eq_some {l r : List Char} (h : dollarRest l = some r) :
    r = [] ∨ r = ['\n'] := by
  cases l with
  | nil => left; simpa [dollarRest] using (Option.some.inj h).symm
  | cons c t =>
    cases t with
    | nil =>
      by_cases hc : c = '\n'
      · subst hc; right
        simpa [dollarRest] using (Option.some.inj h).symm
      · simp [dollarRest, hc] at h
    | cons b u => simp [dollarRest] at h

theorem offsetTailRest_eq_some {l r : List Char}
    (h : offsetTailRest l = some r) : r = [] ∨ r = ['\n'] := by
  unfold offsetTailRest at h
  rcases orSome_eq_some h with h1 | h1
  · split at h1
    · split at h1
      · exact dollarRest_eq_some h1
      · cases h1
    · cases h1
  rcases orSome_eq_some h1 with h2 | h2
  · split at h2
    · exact dollarRest_eq_some h2
    · cases h2
  rcases orSome_eq_some h2 with h3 | h3
  · split at h3
    · split at h3
      · exact dollarRest_eq_some h3
      · cases h3
    · cases h3
  · exact dollarRest_eq_some h3

theorem offsetMatch_eq_some {l r : List Char} (h : offsetMatch l = some r) :
    r = [] ∨ r = ['\n'] := by
  unfold offsetMatch at h
  split at h
  · split at h
    · exact offsetTailRest_eq_some h
    · cases h
  · cases h

/-- Every `Z` of the input is removed by the scan. -/
theorem stripTZAux_no_Z (l : List Char) : 'Z' ∉ stripTZAux l := by
  induction l with
  | nil => simp [stripTZAux]
  | cons c rest ih =>
    by_cases hc : c = 'Z'
    · simpa [stripTZAux, hc] using ih
    · rw [stripTZAux, if_neg hc]
      cases hm : offsetMatch (c :: rest) with
      | some remaining =>
        rcases offsetMatch_eq_some hm with h | h <;> subst h <;> simp
      | none =>
        intro hmem
        rcases List.mem_cons.mp hmem with h | h
        · exact hc h.symm
        · exact ih h

/-- Setting one key leaves every other key unchanged. -/
theorem dget_dset_ne (d : PDict) (k0 k : String) (v : PVal) (hk : k ≠ k0) :
    dget (dset d k0 v) k = dget d k := by
  have hb : (k0 == k) = false := beq_eq_false_iff_ne.mpr (Ne.symm hk)
  induction d with
  | nil => simp [dset, dget, List.find?, hb]
  | cons kv rest ih =>
    by_cases h1 : kv.1 = k0
    · rw [dset, if_pos h1]
      simp only [dget, List.find?]
      have hbeq : (k0 == k) = false := by
        simp [Ne.symm hk]
      have hbeq2 : (kv.1 == k) = false := by
        simp [h1, Ne.symm hk]
      rw [hbeq, hbeq2]
    · rw [dset, if_neg h1]
      by_cases h2 : kv.1 = k
      · simp [dget, List.find?, h2]
      · simp only [dget, List.find?] at ih ⊢
        have hbeq : (kv.1 == k) = false := by simp [h2]
        rw [hbeq]
        exact ih

/-- Under the hypotheses of C7 the per-resource `fixup_id` succeeds on
every resource and pads every id. -/
theorem mapM_fixup_id_ok (rs : List PVal)
    (h : ∀ v ∈ rs, ∃ d s, v = PVal.obj d ∧ dget d "id" = some (.str s)) :
    ∃ rs2, rs.mapM fixup_id = .ok rs2
      ∧ List.Forall₂
          (fun v v2 => ∀ d s, v = PVal.obj d → dget d "id" = some (.str s) →
            v2 = PVal.obj (dset d "id" (.str (rjust s 7 '0')))) rs rs2 := by
  induction rs with
  | nil => exact ⟨[], rfl, List.Forall₂.nil⟩
  | cons v vs ih =>
    obtain ⟨d, s, hv, hid⟩ := h v (List.mem_cons_self v vs)
    obtain ⟨vs2, hvs2, hrel⟩ := ih (fun w hw => h w (List.mem_cons_of_mem v hw))
    have hfix : fixup_id v = .ok (.obj (dset d "id" (.str (rjust s 7 '0')))) := by
      subst hv
      simp [fixup_id, hid]
    refine ⟨PVal.obj (dset d "id" (.str (rjust s 7 '0'))) :: vs2, ?_, ?_⟩
    · rw [List.mapM_cons, hfix, hvs2]
      rfl
    · refine List.Forall₂.cons ?_ hrel
      intro d' s' hv' hid'
      subst hv
      have hd : d' = d := by
        injection hv' with h1
        exact h1.symm
      subst hd
      rw [hid] at hid'
      have : PVal.str s = PVal.str s' := Option.some.inj hid'
      injection this with hs
      subst hs
      rfl

/-! # Claim theorems -/

/-- C6, counterexample: the two example inputs of the claim do NOT
normalize to the same string: `strip_time_zone` turns
`2023-06-27T10:45:57.284Z` into `2023-06-27T10:45:57.284` (it only
deletes the `Z`, it does not extend the fractional part), while
`2023-06-27T10:45:57.284000` stays `2023-06-27T10:45:57.284000`, so the
two results are distinct plain strings. -/
theorem strip_time_zone_examples_not_equal :
    strip_time_zone "2023-06-27T10:45:57.284Z"
      ≠ strip_time_zone "2023-06-27T10:45:57.284000" := by decide

/-- C6, amended: normalization deletes every `Z` (so no stored timestamp
carries a `Z` marker) and deletes a trailing `±hh:mm` / `±hhmm` / `±hh`
offset; the inputs `2023-06-27T10:45:57.284Z` and
`2023-06-27T10:45:57.284000` normalize to `2023-06-27T10:45:57.284` and
`2023-06-27T10:45:57.284000` respectively: both are free of zone
markers, but they are distinct strings and do not compare equal. -/
theorem strip_time_zone_amended (s : String) :
    'Z' ∉ (strip_time_zone s).data
    ∧ strip_time_zone "2023-06-27T10:45:57.284Z" = "2023-06-27T10:45:57.284"
    ∧ strip_time_zone "2023-06-27T10:45:57.284000" = "2023-06-27T10:45:57.284000"
    ∧ strip_time_zone "2023-06-27T10:45:57+01:00" = "2023-06-27T10:45:57"
    ∧ strip_time_zone "2023-06-27T10:45:57+0100" = "2023-06-27T10:45:57"
    ∧ strip_time_zone "2023-06-27T10:45:57-05" = "2023-06-27T10:45:57"
    ∧ strip_time_zone "2023-06-27T10:45:57.284"
        ≠ strip_time_zone "2023-06-27T10:45:57.284000" := by
  refine ⟨stripTZAux_no_Z s.data, by decide, by decide, by decide, by decide,
    by decide, by decide⟩

/-- C8: tag sanitization is the deletion (not escaping) of every
character outside `[a-zA-Z0-9 _.-]`: the result is exactly the input
filtered to the allowed alphabet, hence an in-order subsequence of the
input all of whose characters are allowed; in particular `Café!!`
sanitizes to `Caf`. -/
theorem fixup_tag_deletes_disallowed_chars (t : String) :
    (fixup_tag_name t).data = t.data.filter isAllowedTagChar
    ∧ (fixup_tag_name t).data.Sublist t.data
    ∧ (∀ c ∈ (fixup_tag_name t).data, isAllowedTagChar c = true)
    ∧ fixup_tag_name "Café!!" = "Caf" := by
  refine ⟨rfl, ?_, ?_, by decide⟩
  · exact List.filter_sublist t.data
  · intro c hc
    exact (List.mem_filter.mp hc).2

/-- C9: `SODAHarvester.validate_config` tests `"app_token" not in
source_config` against the RAW configuration string (a substring test),
not against the parsed object `source_config_obj`, which it never uses.
The configuration `{"comment": "app_token"}` has no `app_token` field in
its parsed object, yet `validate_config` accepts it unchanged instead of
raising `ValueError`; the claim (and the spec) describe the intended
field-presence check. -/
theorem validate_config_checks_raw_string_not_object :
    obj_has_key [("comment", "app_token")] "app_token" = false
    ∧ validate_config_soda (json_object_string [("comment", "app_token")])
        = .ok (json_object_string [("comment", "app_token")]) :=
  ⟨by decide, rfl⟩

/-- C7: in `normalise_ckan_resources` every resource id shorter than 7
characters is left-padded with zeros to exactly length 7 (so `42` becomes
`0000042`), an id of length at least 7 is returned unchanged, and the
padding step (`dset` of the `id` key only) leaves every other resource
field untouched. -/
theorem resource_id_padding (pkg : PDict) (rs : List PVal)
    (hres : dget pkg "resources" = some (.arr rs)) (hne : rs ≠ [])
    (hids : ∀ v ∈ rs, ∃ d s, v = PVal.obj d ∧ dget d "id" = some (.str s)) :
    (∃ rs2, normalise_ckan_resources pkg = .ok (dset pkg "resources" (.arr rs2))
       ∧ List.Forall₂
           (fun v v2 => ∀ d s, v = PVal.obj d → dget d "id" = some (.str s) →
             v2 = PVal.obj (dset d "id" (.str (rjust s 7 '0')))) rs rs2)
    ∧ (∀ s : String, s.length < 7 →
         (rjust s 7 '0').data = List.replicate (7 - s.length) '0' ++ s.data
         ∧ (rjust s 7 '0').length = 7)
    ∧ (∀ s : String, 7 ≤ s.length → rjust s 7 '0' = s)
    ∧ (∀ (d : PDict) (v : PVal) (k : String), k ≠ "id" →
         dget (dset d "id" v) k = dget d k)
    ∧ rjust "42" 7 '0' = "0000042" := by
  obtain ⟨rs2, hmap, hrel⟩ := mapM_fixup_id_ok rs hids
  have hemp : rs.isEmpty = false := by
    cases rs with
    | nil => exact absurd rfl hne
    | cons a l => rfl
  have hmap2 : List.mapM.loop fixup_id rs [] = Except.ok rs2 := hmap
  refine ⟨⟨rs2, ?_, hrel⟩, ?_, ?_, ?_, by decide⟩
  · simp [normalise_ckan_resources, hres, pyTruthyOpt, pyTruthy, hemp, hmap2]
  · intro s hs
    have hlt : ¬ (7 ≤ s.length) := by omega
    constructor
    · rw [rjust, if_neg hlt]
    · rw [rjust, if_neg hlt]
      show (List.replicate (7 - s.length) '0' ++ s.data).length = 7
      have hdl : s.data.length = s.length := rfl
      rw [List.length_append, List.length_replicate, hdl]
      omega
  · intro s hs
    rw [rjust, if_pos hs]
  · intro d v k hk
    exact dget_dset_ne d "id" k v hk

/-- A concrete package for the C7 witness. -/
def pkgC7 : PDict :=
  [("resources", PVal.arr
    [PVal.obj [("id", PVal.str "42"), ("url", PVal.str "http://x")]])]

/-- C7 witness: `resource_id_padding` applied to a concrete package whose
single resource has id `42`, together with the evaluated result showing
the padded id `0000042`. -/
theorem resource_id_padding_witness :
    normalise_ckan_resources pkgC7
      = .ok [("resources", PVal.arr
          [PVal.obj [("id", PVal.str "0000042"), ("url", PVal.str "http://x")]])]
    ∧ (∃ rs2, normalise_ckan_resources pkgC7 = .ok (dset pkgC7 "resources" (.arr rs2))
        ∧ List.Forall₂
            (fun v v2 => ∀ d s, v = PVal.obj d → dget d "id" = some (.str s) →
              v2 = PVal.obj (dset d "id" (.str (rjust s 7 '0'))))
            [PVal.obj [("id", PVal.str "42"), ("url", PVal.str "http://x")]] rs2) :=
  ⟨rfl,
    (resource_id_padding pkgC7
      [PVal.obj [("id", PVal.str "42"), ("url", PVal.str "http://x")]]
      rfl (by simp)
      (fun v hv => ⟨[("id", PVal.str "42"), ("url", PVal.str "http://x")], "42",
        List.mem_singleton.mp hv, rfl⟩)).1⟩

/-- Every harvest object created by the upsert loop carries the upsert
action tag. -/
theorem gather_upserts_action (hp : Bool) (ps : List Pkg) (seen : List String) :
    ∀ it ∈ gather_upserts hp ps seen, it.action = HAction.upsert := by
  induction ps generalizing seen with
  | nil => intro it hit; simp [gather_upserts] at hit
  | cons p ps ih =>
    intro it hit
    rw [gather_upserts] at hit
    split at hit
    · exact ih seen it hit
    · split at hit
      · exact ih seen it hit
      · rcases List.mem_cons.mp hit with h | h
        · rw [h]
        · exact ih (p.id :: seen) it h

/-- Full behaviour of the upsert loop on non-private packages,
generalized over the already-seen id set. -/
theorem gather_upserts_spec (hp : Bool) (ps : List Pkg) (seen : List String)
    (hpriv : ∀ p ∈ ps, p.priv = false) :
    (∀ i, i ∈ (gather_upserts hp ps seen).map WorkItem.guid
        ↔ i ∈ ps.map Pkg.id ∧ i ∉ seen)
    ∧ ((gather_upserts hp ps seen).map WorkItem.guid).Nodup
    ∧ ((gather_upserts hp ps seen).map WorkItem.guid).Sublist (ps.map Pkg.id)
    ∧ (∀ it ∈ gather_upserts hp ps seen, it.guid ∉ seen
        ∧ ∃ p, it.content = some p ∧ p.id = it.guid
            ∧ ps.find? (fun q => q.id == it.guid) = some p) := by
  induction ps generalizing seen with
  | nil =>
    refine ⟨fun i => ?_, by simp [gather_upserts], by simp [gather_upserts], ?_⟩
    · simp [gather_upserts]
    · intro it hit; simp [gather_upserts] at hit
  | cons p ps ih =>
    have hp0 : p.priv = false := hpriv p (List.mem_cons_self p ps)
    have hpriv' : ∀ q ∈ ps, q.priv = false :=
      fun q hq => hpriv q (List.mem_cons_of_mem p hq)
    have hnotpriv : ¬ (p.priv ∧ ¬ hp) := by
      rw [hp0]; simp
    by_cases hseen : p.id ∈ seen
    · -- duplicate branch: the package is dropped
      have hrw : gather_upserts hp (p :: ps) seen = gather_upserts hp ps seen := by
        rw [gather_upserts, if_neg hnotpriv, if_pos hseen]
      obtain ⟨ihmem, ihnd, ihsub, ihit⟩ := ih seen hpriv'
      rw [hrw]
      refine ⟨fun i => ?_, ihnd,
        ihsub.trans (List.sublist_cons_self p.id (ps.map Pkg.id)), ?_⟩
      · rw [ihmem]
        constructor
        · rintro ⟨h1, h2⟩
          exact ⟨List.mem_cons_of_mem _ h1, h2⟩
        · rintro ⟨h1, h2⟩
          rcases List.mem_cons.mp h1 with h | h
          · subst h
            exact absurd hseen h2
          · exact ⟨h, h2⟩
      · intro it hit
        obtain ⟨hg, q, hc, hqid, hfind⟩ := ihit it hit
        have hbe : (p.id == it.guid) = false :=
          beq_eq_false_iff_ne.mpr (fun hpe => hg (hpe ▸ hseen))
        refine ⟨hg, q, hc, hqid, ?_⟩
        rw [List.find?_cons]
        simp only [hbe]
        exact hfind
    · -- fresh id: a work item is created and the id becomes seen
      have hrw : gather_upserts hp (p :: ps) seen
          = { guid := p.id, action := .upsert, content := some p }
              :: gather_upserts hp ps (p.id :: seen) := by
        rw [gather_upserts, if_neg hnotpriv, if_neg hseen]
      obtain ⟨ihmem, ihnd, ihsub, ihit⟩ := ih (p.id :: seen) hpriv'
      rw [hrw]
      refine ⟨fun i => ?_, ?_, ?_, ?_⟩
      · show i ∈ p.id :: (gather_upserts hp ps (p.id :: seen)).map WorkItem.guid
            ↔ i ∈ p.id :: ps.map Pkg.id ∧ i ∉ seen
        rw [List.mem_cons, ihmem i]
        constructor
        · rintro (h | ⟨h1, h2⟩)
          · subst h
            exact ⟨List.mem_cons_self _ _, hseen⟩
          · exact ⟨List.mem_cons_of_mem _ h1,
              fun hs => h2 (List.mem_cons_of_mem _ hs)⟩
        · rintro ⟨h1, h2⟩
          rcases List.mem_cons.mp h1 with h | h
          · exact Or.inl h
          · by_cases hip : i = p.id
            · exact Or.inl hip
            · exact Or.inr ⟨h, fun hs => (List.mem_cons.mp hs).elim hip h2⟩
      · show (p.id :: (gather_upserts hp ps (p.id :: seen)).map WorkItem.guid).Nodup
        refine List.Nodup.cons ?_ ihnd
        intro hmem
        exact ((ihmem p.id).mp hmem).2 (List.mem_cons_self p.id seen)
      · show List.Sublist
            (p.id :: (gather_upserts hp ps (p.id :: seen)).map WorkItem.guid)
            (p.id :: ps.map Pkg.id)
        exact List.Sublist.cons₂ p.id ihsub
      · intro it hit
        rcases List.mem_cons.mp hit with h | h
        · subst h
          refine ⟨hseen, p, rfl, rfl, ?_⟩
          rw [List.find?_cons]
          simp
        · obtain ⟨hg, q, hc, hqid, hfind⟩ := ihit it h
          have hgseen : it.guid ∉ seen := fun hs => hg (List.mem_cons_of_mem _ hs)
          have hbe : (p.id == it.guid) = false :=
            beq_eq_false_iff_ne.mpr
              (fun hpe => hg (hpe ▸ List.mem_cons_self p.id seen))
          refine ⟨hgseen, q, hc, hqid, ?_⟩
          rw [List.find?_cons]
          simp only [hbe]
          exact hfind

/-- In both gather stages, filtering the created harvest objects to the
delete action yields exactly the deletion queue. -/
theorem gather_objects_delete_filter (hp : Bool) (pkgs : List Pkg)
    (existing : List String) :
    (datapress_gather_objects hp pkgs existing).filter
        (fun it => it.action == HAction.delete)
      = gather_deletes existing (pkgs.map Pkg.id)
    ∧ (redbridge_gather_objects pkgs existing).filter
        (fun it => it.action == HAction.delete)
      = gather_deletes existing (pkgs.map Pkg.id) := by
  have hdel : ∀ (ex f : List String), (gather_deletes ex f).filter
      (fun it => it.action == HAction.delete) = gather_deletes ex f := by
    intro ex f
    rw [List.filter_eq_self]
    intro it hit
    rw [gather_deletes] at hit
    obtain ⟨j, _, hj⟩ := List.mem_map.mp hit
    rw [← hj]
    rfl
  constructor
  · rw [datapress_gather_objects, List.filter_append, hdel]
    have hup : (gather_upserts hp pkgs []).filter
        (fun it => it.action == HAction.delete) = [] := by
      rw [List.filter_eq_nil_iff]
      intro it hit
      rw [gather_upserts_action hp pkgs [] it hit]
      simp
    rw [hup, List.nil_append]
  · rw [redbridge_gather_objects, List.filter_append, hdel]
    have hup : (pkgs.map (fun p =>
        ({ guid := p.id, action := .upsert, content := some p } : WorkItem))).filter
        (fun it => it.action == HAction.delete) = [] := by
      rw [List.filter_eq_nil_iff]
      intro it hit
      obtain ⟨p, _, hp'⟩ := List.mem_map.mp hit
      rw [← hp']
      simp
    rw [hup, List.nil_append]

/-- C1: in the DataPress and Redbridge gather stages the set of ids
queued for deletion is exactly `existing_ids - fetched_ids`: an id gets
exactly one delete work item when it exists locally and was not fetched,
and zero delete work items otherwise (in particular no fetched id gets
one). -/
theorem gather_delete_queue_is_set_difference (hp : Bool) (pkgs : List Pkg)
    (existing : List String) (hnd : existing.Nodup) (i : String) :
    (((datapress_gather_objects hp pkgs existing).filter
        (fun it => it.action == HAction.delete)).map WorkItem.guid).count i
      = (if i ∈ existing ∧ i ∉ pkgs.map Pkg.id then 1 else 0)
    ∧ (((redbridge_gather_objects pkgs existing).filter
        (fun it => it.action == HAction.delete)).map WorkItem.guid).count i
      = (if i ∈ existing ∧ i ∉ pkgs.map Pkg.id then 1 else 0) := by
  obtain ⟨hd, hr⟩ := gather_objects_delete_filter hp pkgs existing
  have hguids : (gather_deletes existing (pkgs.map Pkg.id)).map WorkItem.guid
      = existing.filter (fun j => !((pkgs.map Pkg.id).contains j)) := by
    rw [gather_deletes, List.map_map]
    exact List.map_id _
  have key : ((gather_deletes existing (pkgs.map Pkg.id)).map WorkItem.guid).count i
      = (if i ∈ existing ∧ i ∉ pkgs.map Pkg.id then 1 else 0) := by
    rw [hguids]
    by_cases hm : i ∈ existing ∧ i ∉ pkgs.map Pkg.id
    · rw [if_pos hm]
      refine List.count_eq_one_of_mem (hnd.filter _) ?_
      rw [List.mem_filter]
      exact ⟨hm.1, by simp [hm.2]⟩
    · rw [if_neg hm, List.count_eq_zero]
      intro hc
      rw [List.mem_filter] at hc
      exact hm ⟨hc.1, by simpa using hc.2⟩
  rw [hd, hr]
  exact ⟨key, key⟩

/-- Fetched packages for the C1 witness: ids A and B upstream. -/
def pkgsC1 : List Pkg := [⟨"A", "a", false⟩, ⟨"B", "b", false⟩]

/-- Existing catalog ids for the C1 witness: A still upstream, D gone. -/
def existingC1 : List String := ["A", "D"]

/-- C1 witness: with upstream ids A,B and local ids A,D the delete queue
is exactly the work item for D, and
`gather_delete_queue_is_set_difference` applies at i = D. -/
theorem gather_delete_queue_witness :
    (((datapress_gather_objects false pkgsC1 existingC1).filter
        (fun it => it.action == HAction.delete)).map WorkItem.guid) = ["D"]
    ∧ (((datapress_gather_objects false pkgsC1 existingC1).filter
        (fun it => it.action == HAction.delete)).map WorkItem.guid).count "D"
        = (if "D" ∈ existingC1 ∧ "D" ∉ pkgsC1.map Pkg.id then 1 else 0) :=
  ⟨by decide,
    (gather_delete_queue_is_set_difference false pkgsC1 existingC1 (by decide) "D").1⟩

/-- C3: when no fetched record is private, the DataPress gather stage
collapses duplicate ids to the first occurrence: the created upsert work
items have pairwise-distinct guids covering exactly the fetched ids, in
first-encounter order (a subsequence of the fetched id sequence), each
kept item carrying the first fetched record with that id; later
duplicates are dropped without an error. -/
theorem gather_duplicate_ids_collapsed (hp : Bool) (pkgs : List Pkg)
    (hpriv : ∀ p ∈ pkgs, p.priv = false) :
    ((gather_upserts hp pkgs []).map WorkItem.guid).Nodup
    ∧ (∀ i, i ∈ (gather_upserts hp pkgs []).map WorkItem.guid
        ↔ i ∈ pkgs.map Pkg.id)
    ∧ List.Sublist ((gather_upserts hp pkgs []).map WorkItem.guid)
        (pkgs.map Pkg.id)
    ∧ (∀ it ∈ gather_upserts hp pkgs [], it.action = HAction.upsert
        ∧ ∃ p, it.content = some p ∧ p.id = it.guid
            ∧ pkgs.find? (fun q => q.id == it.guid) = some p) := by
  obtain ⟨hmem, hnd, hsub, hit⟩ := gather_upserts_spec hp pkgs [] hpriv
  refine ⟨hnd, fun i => ?_, hsub, fun it h => ?_⟩
  · rw [hmem i]
    simp
  · obtain ⟨_, q, hc, hqid, hfind⟩ := hit it h
    exact ⟨gather_upserts_action hp pkgs [] it h, q, hc, hqid, hfind⟩

/-- Fetched packages for the C3 witness: ids A, B, A, C in that order. -/
def pkgsC3 : List Pkg :=
  [⟨"A", "a-first", false⟩, ⟨"B", "b", false⟩, ⟨"A", "a-dup", false⟩,
   ⟨"C", "c", false⟩]

/-- C3 witness: fetching ids [A,B,A,C] creates exactly one upsert item
each for A, B, C in first-encounter order, the kept A being the
first-fetched record, and `gather_duplicate_ids_collapsed` applies. -/
theorem gather_duplicate_ids_collapsed_witness :
    (gather_upserts false pkgsC3 []).map WorkItem.guid = ["A", "B", "C"]
    ∧ (gather_upserts false pkgsC3 []).map WorkItem.content
        = [some ⟨"A", "a-first", false⟩, some ⟨"B", "b", false⟩,
           some ⟨"C", "c", false⟩]
    ∧ ((gather_upserts false pkgsC3 []).map WorkItem.guid).Nodup :=
  ⟨by decide, by decide,
    (gather_duplicate_ids_collapsed false pkgsC3 (by decide)).1⟩

/-- Under unique keys, a stored pair determines the extras lookup. -/
theorem get_package_extra_val_eq_some_of_mem (extras : List Extra) (k v : String)
    (hnd : (extras.map Prod.fst).Nodup) (hmem : (k, v) ∈ extras) :
    get_package_extra_val extras k = some v := by
  induction extras with
  | nil => cases hmem
  | cons e es ih =>
    rcases List.mem_cons.mp hmem with h | h
    · subst h
      simp [get_package_extra_val, List.find?]
    · have hk : k ∈ es.map Prod.fst :=
        List.mem_map.mpr ⟨(k, v), h, rfl⟩
      have hne : e.1 ≠ k := by
        intro he
        exact (List.nodup_cons.mp hnd).1 (he ▸ hk)
      have hbe : (e.1 == k) = false := beq_eq_false_iff_ne.mpr hne
      rw [get_package_extra_val] at ih ⊢
      rw [List.find?_cons]
      simp only [hbe]
      exact ih (List.nodup_cons.mp hnd).2 h

/-- An absent key makes the extras lookup return `None`. -/
theorem get_package_extra_val_eq_none (extras : List Extra) (k : String)
    (h : ∀ v, (k, v) ∉ extras) : get_package_extra_val extras k = none := by
  rw [get_package_extra_val, Option.map_eq_none', List.find?_eq_none]
  intro e he
  have : e.1 ≠ k := by
    intro hk
    exact h e.2 (by rw [← hk]; exact he)
  simp [beq_eq_false_iff_ne.mpr this]

/-- C4: in the `"update"` branch of the SODA import stage, when the
existing record stores a `content_hash` extra equal to the hash carried
by the work item, no write is performed and the distinct outcome
`unchanged` is returned; when the stored hash differs from the carried
hash, or no hash is stored, the branch proceeds to write. -/
theorem soda_unchanged_on_matching_hash (exExtras : List Extra) (h freq : String)
    (hnd : (exExtras.map Prod.fst).Nodup) :
    (("content_hash", h) ∈ exExtras →
       soda_import_update (some exExtras) h freq = .unchanged)
    ∧ (∀ v, ("content_hash", v) ∈ exExtras → v ≠ h →
       ∃ es, soda_import_update (some exExtras) h freq = .written es)
    ∧ ((∀ v, ("content_hash", v) ∉ exExtras) →
       ∃ es, soda_import_update (some exExtras) h freq = .written es) := by
  refine ⟨?_, ?_, ?_⟩
  · intro hmem
    have hval := get_package_extra_val_eq_some_of_mem exExtras "content_hash" h hnd hmem
    simp [soda_import_update, hval]
  · intro v hmem hne
    have hval := get_package_extra_val_eq_some_of_mem exExtras "content_hash" v hnd hmem
    have hw : soda_import_update (some exExtras) h freq
        = .written (upsert_package_extra
            (upsert_package_extra (add_existing_extras (some exExtras) exExtras)
              "content_hash" h)
            "harvest_source_frequency" freq) := by
      simp [soda_import_update, hval, hne]
    exact ⟨_, hw⟩
  · intro habs
    have hval := get_package_extra_val_eq_none exExtras "content_hash" habs
    have hw : soda_import_update (some exExtras) h freq
        = .written (upsert_package_extra
            (upsert_package_extra (add_existing_extras (some exExtras) exExtras)
              "content_hash" h)
            "harvest_source_frequency" freq) := by
      simp [soda_import_update, hval]
    exact ⟨_, hw⟩

/-- C4 witness: a stored hash `abc` short-circuits an update carrying
hash `abc` to `unchanged`, while an update carrying hash `xyz` proceeds
to a write. -/
theorem soda_unchanged_on_matching_hash_witness :
    soda_import_update (some [("content_hash", "abc")]) "abc" "MONTHLY"
      = .unchanged
    ∧ (∃ es, soda_import_update (some [("content_hash", "abc")]) "xyz" "MONTHLY"
      = .written es) :=
  ⟨(soda_unchanged_on_matching_hash [("content_hash", "abc")] "abc" "MONTHLY"
      (by decide)).1 (by decide),
   (soda_unchanged_on_matching_hash [("content_hash", "abc")] "xyz" "MONTHLY"
      (by decide)).2.1 "abc" (by decide) (by decide)⟩

/-- C5: when the catalog has no organization whose id or name is `ref`
and the override table maps `(s, ref)` to a mapping with name `n`, the
resolution performs its catalog lookup with `n` (not `ref`), and if that
lookup succeeds the resolved value is the id of the organization found
under `n`. -/
theorem override_redirects_org_lookup (catalog : List Org)
    (mappings : List (String × List (String × OrgMapping)))
    (s ref : String) (m : OrgMapping) (remoteOrgs : Option String)
    (pkgOrg : Option OrgPayload) (pkgOrgName : Option String)
    (orgLink : Option String)
    (hnone : organization_show catalog ref = none)
    (hmap : provider_org_mappings_lookup mappings s ref = some m) :
    mapped_lookup_id catalog mappings s ref = m.name
    ∧ (∀ org, organization_show catalog m.name = some org →
        get_mapped_organization catalog mappings s ref remoteOrgs
          pkgOrg pkgOrgName orgLink = .found org.id) := by
  have hcanon : canonicalise_org_to_name catalog ref = ref := by
    rw [canonicalise_org_to_name, hnone]
  have hlook : mapped_lookup_id catalog mappings s ref = m.name := by
    rw [mapped_lookup_id]
    simp only [hcanon, hmap]
  refine ⟨hlook, fun org horg => ?_⟩
  rw [get_mapped_organization.eq_def]
  simp only [hlook, horg]

/-- The catalog for the C5 witness: one organization stored under the
override name. -/
def catalogC5 : List Org := [⟨"id1", "org-a-new", "Org A Title"⟩]

/-- The override table for the C5 witness:
`{sourceX: {orgA: {name: org-a-new, title: Org A}}}`. -/
def mappingsC5 : List (String × List (String × OrgMapping)) :=
  [("sourceX", [("orgA", ⟨"org-a-new", "Org A"⟩)])]

/-- C5 witness: resolving `orgA` under `sourceX` looks up `org-a-new`
and returns the id of the organization stored under that name. -/
theorem override_redirects_org_lookup_witness :
    mapped_lookup_id catalogC5 mappingsC5 "sourceX" "orgA" = "org-a-new"
    ∧ get_mapped_organization catalogC5 mappingsC5 "sourceX" "orgA"
        (some "create") none none none = .found "id1" :=
  ⟨(override_redirects_org_lookup catalogC5 mappingsC5 "sourceX" "orgA"
      ⟨"org-a-new", "Org A"⟩ (some "create") none none none
      (by decide) (by decide)).1,
   (override_redirects_org_lookup catalogC5 mappingsC5 "sourceX" "orgA"
      ⟨"org-a-new", "Org A"⟩ (some "create") none none none
      (by decide) (by decide)).2
     ⟨"id1", "org-a-new", "Org A Title"⟩ (by decide)⟩

/-- The keys of the three provenance extras appended by the merge. -/
def provenance_keys : List String :=
  ["upstream_url", "upstream_metadata_modified", "upstream_metadata_created"]

/-- An upsert introduces no key besides its own. -/
theorem upsert_keys_subset (es : List Extra) (k v : String) :
    ∀ k', k' ∈ (upsert_package_extra es k v).map Prod.fst →
      k' ∈ es.map Prod.fst ∨ k' = k := by
  induction es with
  | nil =>
    intro k' h
    rcases List.mem_singleton.mp h with h
    exact Or.inr h
  | cons e es ih =>
    intro k' h
    by_cases he : e.1 = k
    · rw [upsert_package_extra, if_pos he] at h
      rcases List.mem_cons.mp h with h | h
      · exact Or.inr h
      · exact Or.inl (List.mem_cons_of_mem _ h)
    · rw [upsert_package_extra, if_neg he] at h
      rcases List.mem_cons.mp h with h | h
      · exact Or.inl (h ▸ List.mem_cons_self _ _)
      · rcases ih k' h with h | h
        · exact Or.inl (List.mem_cons_of_mem _ h)
        · exact Or.inr h

/-- An upsert preserves uniqueness of keys. -/
theorem upsert_keys_nodup (es : List Extra) (k v : String)
    (hnd : (es.map Prod.fst).Nodup) :
    ((upsert_package_extra es k v).map Prod.fst).Nodup := by
  induction es with
  | nil => simp [upsert_package_extra]
  | cons e es ih =>
    rw [List.map_cons] at hnd
    obtain ⟨hhd, htl⟩ := List.nodup_cons.mp hnd
    by_cases he : e.1 = k
    · rw [upsert_package_extra, if_pos he]
      rw [List.map_cons]
      exact List.nodup_cons.mpr ⟨he ▸ hhd, htl⟩
    · rw [upsert_package_extra, if_neg he]
      rw [List.map_cons]
      refine List.nodup_cons.mpr ⟨?_, ih htl⟩
      intro hmem
      rcases upsert_keys_subset es k v e.1 hmem with h | h
      · exact hhd h
      · exact he h

/-- Unfolding of one `default_extras` iteration on a cons cell. -/
theorem apply_default_extra_cons (o : Bool) (fmt : String → String)
    (a : Extra) (es : List Extra) (kv : String × String) :
    apply_default_extra o fmt (a :: es) kv
      = if a.1 = kv.1 then
          (if o then es ++ [(kv.1, fmt kv.2)] else a :: es)
        else a :: apply_default_extra o fmt es kv := by
  by_cases ha : a.1 = kv.1
  · have hfind : get_extra kv.1 (a :: es) = some a := by
      rw [get_extra, List.find?_cons_of_pos]
      simpa using ha
    simp only [apply_default_extra, hfind, if_pos ha]
    by_cases ho : o
    · simp only [if_pos ho, List.erase_cons_head]
    · simp only [if_neg ho]
  · have hbe : (a.1 == kv.1) = false := beq_eq_false_iff_ne.mpr ha
    have hfind : get_extra kv.1 (a :: es) = get_extra kv.1 es := by
      rw [get_extra, get_extra, List.find?_cons]
      simp only [hbe]
    simp only [apply_default_extra, hfind, if_neg ha]
    cases hfes : get_extra kv.1 es with
    | none => simp only [hfes, List.cons_append]
    | some e =>
      have hek : e.1 = kv.1 := by
        have hf : List.find? (fun x : Extra => x.1 == kv.1) es = some e := hfes
        have hp := List.find?_some hf
        exact beq_iff_eq.mp hp
      have hane : ¬ (a == e) := by
        rw [beq_iff_eq]
        intro hae
        exact ha (hae ▸ hek)
      simp only [hfes]
      by_cases ho : o
      · simp only [if_pos ho, List.erase_cons_tail hane, List.cons_append]
      · simp only [if_neg ho]

/-- One `default_extras` iteration keeps keys unique and introduces no
key besides its own. -/
theorem apply_default_extra_keys (o : Bool) (fmt : String → String)
    (es : List Extra) (kv : String × String)
    (hnd : (es.map Prod.fst).Nodup) :
    ((apply_default_extra o fmt es kv).map Prod.fst).Nodup
    ∧ ∀ k', k' ∈ (apply_default_extra o fmt es kv).map Prod.fst →
        k' ∈ es.map Prod.fst ∨ k' = kv.1 := by
  induction es with
  | nil =>
    constructor
    · simp [apply_default_extra, get_extra]
    · intro k' h
      simp [apply_default_extra, get_extra] at h
      exact Or.inr h
  | cons a es ih =>
    rw [List.map_cons] at hnd
    obtain ⟨hhd, htl⟩ := List.nodup_cons.mp hnd
    obtain ⟨ihnd, ihsub⟩ := ih htl
    rw [apply_default_extra_cons]
    by_cases ha : a.1 = kv.1
    · rw [if_pos ha]
      by_cases ho : o
      · rw [if_pos ho]
        constructor
        · rw [List.map_append]
          refine List.Nodup.append htl (by simp) ?_
          intro x hx hxk
          simp only [List.map_cons, List.map_nil, List.mem_singleton] at hxk
          exact hhd ((hxk.trans ha.symm) ▸ hx)
        · intro k' h
          rw [List.map_append, List.mem_append] at h
          rcases h with h | h
          · exact Or.inl (List.mem_cons_of_mem _ h)
          · exact Or.inr (by simpa using h)
      · rw [if_neg ho]
        exact ⟨hnd, fun k' h => Or.inl h⟩
    · rw [if_neg ha]
      constructor
      · rw [List.map_cons]
        refine List.nodup_cons.mpr ⟨?_, ihnd⟩
        intro hmem
        rcases ihsub a.1 hmem with h | h
        · exact hhd h
        · exact ha h
      · intro k' h
        rw [List.map_cons] at h
        rcases List.mem_cons.mp h with h | h
        · exact Or.inl (h ▸ List.mem_cons_self _ _)
        · rcases ihsub k' h with h | h
          · exact Or.inl (List.mem_cons_of_mem _ h)
          · exact Or.inr h

/-- The whole `default_extras` loop keeps keys unique and introduces only
configured default keys. -/
theorem apply_default_extras_keys (o : Bool) (fmt : String → String)
    (defaults : List (String × String)) (es : List Extra)
    (hnd : (es.map Prod.fst).Nodup) :
    ((apply_default_extras o fmt defaults es).map Prod.fst).Nodup
    ∧ ∀ k', k' ∈ (apply_default_extras o fmt defaults es).map Prod.fst →
        k' ∈ es.map Prod.fst ∨ k' ∈ defaults.map Prod.fst := by
  induction defaults generalizing es with
  | nil => exact ⟨hnd, fun k' h => Or.inl h⟩
  | cons d ds ih =>
    obtain ⟨hnd1, hsub1⟩ := apply_default_extra_keys o fmt es d hnd
    obtain ⟨hnd2, hsub2⟩ := ih (apply_default_extra o fmt es d) hnd1
    refine ⟨hnd2, fun k' h => ?_⟩
    rcases hsub2 k' h with h | h
    · rcases hsub1 k' h with h | h
      · exact Or.inl h
      · exact Or.inr (h ▸ List.mem_map.mpr ⟨d, List.mem_cons_self d ds, rfl⟩)
    · exact Or.inr (List.map_cons Prod.fst d ds ▸ List.mem_cons_of_mem _ h)

/-- Folding upserts over a transfer list keeps keys unique and introduces
only keys of the transfer list. -/
theorem fold_upsert_keys (ts : List Extra) (es : List Extra)
    (hnd : (es.map Prod.fst).Nodup) :
    ((ts.foldl (fun acc e => upsert_package_extra acc e.1 e.2) es).map Prod.fst).Nodup
    ∧ ∀ k', k' ∈ (ts.foldl (fun acc e => upsert_package_extra acc e.1 e.2) es).map Prod.fst →
        k' ∈ es.map Prod.fst ∨ k' ∈ ts.map Prod.fst := by
  induction ts generalizing es with
  | nil => exact ⟨hnd, fun k' h => Or.inl h⟩
  | cons t ts ih =>
    obtain ⟨hnd2, hsub2⟩ := ih (upsert_package_extra es t.1 t.2)
      (upsert_keys_nodup es t.1 t.2 hnd)
    refine ⟨hnd2, fun k' h => ?_⟩
    rcases hsub2 k' h with h | h
    · rcases upsert_keys_subset es t.1 t.2 k' h with h | h
      · exact Or.inl h
      · exact Or.inr (h ▸ List.mem_map.mpr ⟨t, List.mem_cons_self t ts, rfl⟩)
    · exact Or.inr (List.map_cons Prod.fst t ts ▸ List.mem_cons_of_mem _ h)

/-- Every extra kept by `remove_extras` has its key outside the removed
set. -/
theorem remove_extras_key_not_removed (es : List Extra) (keys : List String) :
    ∀ e ∈ remove_extras es keys, e.1 ∉ keys := by
  intro e he
  have h2 := (List.mem_filter.mp he).2
  simp only [List.contains, Bool.not_eq_true', List.elem_eq_mem,
    decide_eq_false_iff_not] at h2
  exact h2

/-- The carried-over extras step keeps keys unique and introduces only
keys outside the always-refreshed set. -/
theorem add_existing_extras_keys (ex : Option (List Extra)) (es : List Extra)
    (hnd : (es.map Prod.fst).Nodup) :
    ((add_existing_extras ex es).map Prod.fst).Nodup
    ∧ ∀ k', k' ∈ (add_existing_extras ex es).map Prod.fst →
        k' ∈ es.map Prod.fst ∨ k' ∉ refresh_keys := by
  cases ex with
  | none =>
    have hdef : add_existing_extras none es
        = ([] : List Extra).foldl (fun acc e => upsert_package_extra acc e.1 e.2) es := rfl
    rw [hdef]
    obtain ⟨hnd2, hsub2⟩ := fold_upsert_keys [] es hnd
    exact ⟨hnd2, fun k' h => Or.inl ((hsub2 k' h).resolve_right (by simp))⟩
  | some exs =>
    have hdef : add_existing_extras (some exs) es
        = (remove_extras exs refresh_keys).foldl
            (fun acc e => upsert_package_extra acc e.1 e.2) es := rfl
    rw [hdef]
    obtain ⟨hnd2, hsub2⟩ := fold_upsert_keys (remove_extras exs refresh_keys) es hnd
    refine ⟨hnd2, fun k' h => ?_⟩
    rcases hsub2 k' h with h | h
    · exact Or.inl h
    · obtain ⟨e, he, hek⟩ := List.mem_map.mp h
      exact Or.inr (hek ▸ remove_extras_key_not_removed exs refresh_keys e he)

/-- The baseline-defaults step keeps keys unique and introduces at most
`data_quality` and `dataset_boost`. -/
theorem add_default_extras_keys (es : List Extra)
    (hnd : (es.map Prod.fst).Nodup) :
    ((add_default_extras es).map Prod.fst).Nodup
    ∧ ∀ k', k' ∈ (add_default_extras es).map Prod.fst →
        k' ∈ es.map Prod.fst ∨ k' = "data_quality" ∨ k' = "dataset_boost" := by
  have habs : ∀ (l : List Extra) (k : String),
      get_package_extra_val l k = none → k ∉ l.map Prod.fst := by
    intro l k hval hmem
    obtain ⟨e, he, hek⟩ := List.mem_map.mp hmem
    rw [get_package_extra_val, Option.map_eq_none', List.find?_eq_none] at hval
    exact hval e he (by simp [hek])
  have happend : ∀ (l : List Extra) (k v : String), (l.map Prod.fst).Nodup →
      k ∉ l.map Prod.fst → ((l ++ [(k, v)]).map Prod.fst).Nodup := by
    intro l k v hl hk
    rw [List.map_append]
    refine List.Nodup.append hl (by simp) ?_
    intro x hx hxk
    simp only [List.map_cons, List.map_nil, List.mem_singleton] at hxk
    exact hk (hxk ▸ hx)
  rw [add_default_extras]
  by_cases h1 : get_package_extra_val es "data_quality" = none
  · rw [if_pos h1]
    by_cases h2 : get_package_extra_val (es ++ [("data_quality", "")])
        "dataset_boost" = none
    · rw [if_pos h2]
      have hnd1 := happend es "data_quality" "" hnd (habs es "data_quality" h1)
      constructor
      · refine happend _ "dataset_boost" "1.0" hnd1 ?_
        exact habs _ "dataset_boost" h2
      · intro k' h
        rw [List.map_append, List.mem_append] at h
        rcases h with h | h
        · rw [List.map_append, List.mem_append] at h
          rcases h with h | h
          · exact Or.inl h
          · exact Or.inr (Or.inl (by simpa using h))
        · exact Or.inr (Or.inr (by simpa using h))
    · rw [if_neg h2]
      constructor
      · exact happend es "data_quality" "" hnd (habs es "data_quality" h1)
      · intro k' h
        rw [List.map_append, List.mem_append] at h
        rcases h with h | h
        · exact Or.inl h
        · exact Or.inr (Or.inl (by simpa using h))
  · rw [if_neg h1]
    by_cases h2 : get_package_extra_val es "dataset_boost" = none
    · rw [if_pos h2]
      constructor
      · exact happend es "dataset_boost" "1.0" hnd (habs es "dataset_boost" h2)
      · intro k' h
        rw [List.map_append, List.mem_append] at h
        rcases h with h | h
        · exact Or.inl h
        · exact Or.inr (Or.inr (by simpa using h))
    · rw [if_neg h2]
      exact ⟨hnd, fun k' h => Or.inl h⟩

/-- C2, counterexample: the claimed invariant fails as stated, because
the three provenance extras are appended with a plain list append, not an
upsert: with a configured default extra keyed `upstream_url` (and no
override, no existing record, empty incoming extras) the merged extras
contain the key `upstream_url` twice. -/
theorem import_merge_duplicate_keys_counterexample :
    ¬ ((import_stage_extras_merge false id [("upstream_url", "x")] none
        "u" "m" "c" []).map Prod.fst).Nodup := by decide

/-- C2, amended: the merged extras list has no duplicate keys provided
the incoming records extras have unique keys and neither they nor the
configured default extras use one of the three provenance keys
`upstream_url` / `upstream_metadata_modified` / `upstream_metadata_created`
(the carried-over extras are always filtered against the refresh set, and
the baseline `data_quality` / `dataset_boost` entries are added only when
absent); in particular re-running the import on the same unchanged record
under these provisos again yields no duplicate keys.  Without the proviso
the plain provenance append can duplicate a key. -/
theorem import_merge_no_duplicate_keys_amended (o : Bool)
    (fmt : String → String) (defaults : List (String × String))
    (ex : Option (List Extra)) (u mo cr : String) (initial : List Extra)
    (hinitNd : (initial.map Prod.fst).Nodup)
    (hinitProv : ∀ k ∈ initial.map Prod.fst, k ∉ provenance_keys)
    (hdefProv : ∀ k ∈ defaults.map Prod.fst, k ∉ provenance_keys) :
    ((import_stage_extras_merge o fmt defaults ex u mo cr initial).map
      Prod.fst).Nodup := by
  rw [import_stage_extras_merge]
  obtain ⟨hnd1, hsub1⟩ := apply_default_extras_keys o fmt defaults initial hinitNd
  obtain ⟨hnd2, hsub2⟩ := add_existing_extras_keys ex _ hnd1
  obtain ⟨hnd3, hsub3⟩ := add_default_extras_keys _ hnd2
  have hprovk : (provenance_extras u mo cr).map Prod.fst = provenance_keys := rfl
  rw [List.map_append, hprovk]
  refine List.Nodup.append hnd3 (by decide) ?_
  intro k hk hp
  rcases hsub3 k hk with h | h | h
  · rcases hsub2 k h with h | h
    · rcases hsub1 k h with h | h
      · exact hinitProv k h hp
      · exact hdefProv k h hp
    · simp only [provenance_keys, List.mem_cons, List.not_mem_nil, or_false] at hp
      rcases hp with h1 | h1 | h1 <;> subst h1 <;> exact h (by decide)
  · subst h
    exact absurd hp (by decide)
  · subst h
    exact absurd hp (by decide)

/-- C2 witness: a merge with a configured default `src_title`, an
existing record carrying a locally-curated `data_quality` and a stale
`upstream_url`, and an incoming extra `notes_field`, ends with unique
keys. -/
theorem import_merge_no_duplicate_keys_amended_witness :
    ((import_stage_extras_merge false id [("src_title", "t")]
        (some [("data_quality", "5"), ("upstream_url", "old")])
        "u" "m" "c" [("notes_field", "n")]).map Prod.fst).Nodup :=
  import_merge_no_duplicate_keys_amended false id [("src_title", "t")]
    (some [("data_quality", "5"), ("upstream_url", "old")]) "u" "m" "c"
    [("notes_field", "n")] (by decide) (by decide) (by decide)

/-- Inversion of a successful `Except` bind. -/
theorem except_bind_ok {α β : Type} {e : Except String α}
    {f : α → Except String β} {b : β} (h : e >>= f = .ok b) :
    ∃ a, e = .ok a ∧ f a = .ok b := by
  cases e with
  | error msg => simp [Bind.bind, Except.bind] at h
  | ok a => exact ⟨a, rfl, by simpa [Bind.bind, Except.bind] using h⟩

/-- `dget` under unique keys is determined by membership. -/
theorem dget_eq_of_mem (d : PDict) (kv : String × PVal)
    (hnd : (d.map Prod.fst).Nodup) (hmem : kv ∈ d) :
    dget d kv.1 = some kv.2 := by
  induction d with
  | nil => cases hmem
  | cons e es ih =>
    rw [List.map_cons] at hnd
    obtain ⟨hhd, htl⟩ := List.nodup_cons.mp hnd
    rcases List.mem_cons.mp hmem with h | h
    · subst h
      simp [dget, List.find?]
    · have hk : kv.1 ∈ es.map Prod.fst := List.mem_map.mpr ⟨kv, h, rfl⟩
      have hne : e.1 ≠ kv.1 := fun he => hhd (he ▸ hk)
      rw [dget] at ih ⊢
      rw [List.find?_cons]
      simp only [beq_eq_false_iff_ne.mpr hne]
      exact ih htl h

/-- A key absent from a dict stays absent in any filtered dict. -/
theorem dget_filter_none (d : PDict) (f : String × PVal → Bool) (k : String)
    (h : dget d k = none) : dget (d.filter f) k = none := by
  rw [dget, Option.map_eq_none', List.find?_eq_none] at h ⊢
  intro kv hkv
  exact h kv (List.mem_filter.mp hkv).1

/-- The None-stripping pass removes the `state` key whenever it is absent
or null (under the unique keys of a parsed JSON object). -/
theorem removeNones_state (pkg : PDict)
    (hnd : (pkg.map Prod.fst).Nodup)
    (hstate : dget pkg "state" = none ∨ dget pkg "state" = some PVal.null) :
    dget (removeNones pkg) "state" = none := by
  rcases hstate with h | h
  · exact dget_filter_none pkg _ "state" h
  · rw [removeNones, dget, Option.map_eq_none', List.find?_eq_none]
    intro kv hkv
    obtain ⟨hmem, hkeep⟩ := List.mem_filter.mp hkv
    intro hbe
    have hk : kv.1 = "state" := beq_iff_eq.mp hbe
    have := dget_eq_of_mem pkg kv hnd hmem
    rw [hk, h] at this
    have hnull : kv.2 = PVal.null := (Option.some.inj this).symm
    rw [hnull] at hkeep
    simp [isNull] at hkeep

/-- The tags pass never touches the `state` key. -/
theorem step_tags_state (pkg p' : PDict) (h : step_tags pkg = .ok p') :
    dget p' "state" = dget pkg "state" := by
  unfold step_tags at h
  split at h
  · split at h
    · obtain ⟨ts, _, h2⟩ := except_bind_ok h
      rw [← Except.ok.inj h2]
      exact dget_dset_ne pkg "tags" "state" _ (by decide)
    · rw [← Except.ok.inj h]
  · rw [← Except.ok.inj h]

/-- The email passes never touch the `state` key. -/
theorem step_email_state (key : String) (q : String → String) (pkg p' : PDict)
    (hk : "state" ≠ key) (h : step_email key q pkg = .ok p') :
    dget p' "state" = dget pkg "state" := by
  unfold step_email at h
  split at h
  · rw [← Except.ok.inj h]
  · rw [← Except.ok.inj h]
    exact dget_dset_ne pkg key "state" _ hk
  · cases h

/-- The organization pass never touches the `state` key. -/
theorem step_org_state (v : PVal → Bool) (pkg p' : PDict)
    (h : step_org v pkg = .ok p') :
    dget p' "state" = dget pkg "state" := by
  unfold step_org at h
  split at h
  · rw [← Except.ok.inj h]
  · split at h
    · cases h
    · split at h
      · rw [← Except.ok.inj h]
      · split at h
        · cases h
        · rw [← Except.ok.inj h]
          exact dget_dset_ne pkg "organization" "state" _ (by decide)
  · cases h

/-- Filling absent default keys never touches the `state` key. -/
theorem step_default_keys_state (pkg : PDict) :
    dget (step_default_keys pkg) "state" = dget pkg "state" := by
  have hgen : ∀ (keys : List String) (d : PDict), "state" ∉ keys →
      dget (keys.foldl
        (fun d k => if (dget d k).isSome then d else dset d k (.str "")) d)
        "state" = dget d "state" := by
    intro keys
    induction keys with
    | nil => intro d _; rfl
    | cons k ks ih =>
      intro d hmem
      rw [List.foldl_cons]
      have hks : "state" ∉ ks := fun hs => hmem (List.mem_cons_of_mem _ hs)
      rw [ih _ hks]
      by_cases hsome : (dget d k).isSome
      · rw [if_pos hsome]
      · rw [if_neg hsome]
        exact dget_dset_ne d k "state" _
          (fun he => hmem (he ▸ List.mem_cons_self k ks))
  exact hgen datapress_default_keys pkg (by decide)

/-- The resources pass never touches the `state` key. -/
theorem step_resources_state (ext : DatapressExt) (pkg p' : PDict)
    (h : step_resources ext pkg = .ok p') :
    dget p' "state" = dget pkg "state" := by
  unfold step_resources at h
  split at h
  · rw [← Except.ok.inj h]
  · obtain ⟨rs2, _, h2⟩ := except_bind_ok h
    rw [← Except.ok.inj h2]
    exact dget_dset_ne pkg "resources" "state" _ (by decide)
  · split at h
    · rw [← Except.ok.inj h]
    · cases h
  · split at h
    · rw [← Except.ok.inj h]
    · cases h
  · cases h

/-- Stripping the timezone of a metadata field never touches the `state`
key. -/
theorem step_strip_tz_state (key : String) (pkg p' : PDict)
    (hk : "state" ≠ key) (h : step_strip_tz key pkg = .ok p') :
    dget p' "state" = dget pkg "state" := by
  unfold step_strip_tz at h
  split at h
  · cases h
  · rw [← Except.ok.inj h]
    exact dget_dset_ne pkg key "state" _ hk
  · cases h

/-- Across all the passes before the deletion, the `state` lookup agrees
with the lookup after the None-stripping pass. -/
theorem normalize_steps_state (ext : DatapressExt) (pkg p' : PDict)
    (h : datapress_normalize_steps ext pkg = .ok p') :
    dget p' "state" = dget (removeNones pkg) "state" := by
  unfold datapress_normalize_steps at h
  obtain ⟨a1, h1, h⟩ := except_bind_ok h
  obtain ⟨a2, h2, h⟩ := except_bind_ok h
  obtain ⟨a3, h3, h⟩ := except_bind_ok h
  obtain ⟨a4, h4, h⟩ := except_bind_ok h
  obtain ⟨a6, h5, h⟩ := except_bind_ok h
  obtain ⟨a7, h6, h⟩ := except_bind_ok h
  obtain ⟨a8, h7, h⟩ := except_bind_ok h
  have hok : Except.ok a8 = Except.ok p' := h
  have hp : p' = a8 := (Except.ok.inj hok).symm
  rw [hp, step_strip_tz_state "metadata_created" a7 a8 (by decide) h7,
    step_strip_tz_state "metadata_modified" a6 a7 (by decide) h6,
    step_resources_state ext (step_default_keys a4) a6 h5,
    step_default_keys_state a4,
    step_org_state ext.nameValidatorOk a3 a4 h4,
    step_email_state "maintainer_email" ext.quoteSafeAt a2 a3 (by decide) h3,
    step_email_state "author_email" ext.quoteSafeAt a1 a2 (by decide) h2,
    step_tags_state (removeNones pkg) a1 h1]

/-- C10: `_datapress_to_ckan` is partial in the upstream lifecycle field:
for every package dict (with the unique keys of a parsed JSON object)
whose `state` key is absent or null, the None-stripping pass leaves no
`state` entry, so if all earlier passes succeed the unconditional
`del package_dict["state"]` raises `KeyError`; in every case the whole
record fails normalization, and the surrounding import stage records an
item-level object error instead of importing the record (for any
continuation of the import stage). -/
theorem missing_state_fails_normalization {α : Type} (ext : DatapressExt)
    (rest : PDict → α) (pkg : PDict)
    (hnd : (pkg.map Prod.fst).Nodup)
    (hstate : dget pkg "state" = none ∨ dget pkg "state" = some PVal.null) :
    (∀ p', datapress_normalize_steps ext pkg = .ok p' →
        dget p' "state" = none
        ∧ datapress_to_ckan ext pkg = .error "KeyError: state")
    ∧ (∃ msg, datapress_to_ckan ext pkg = .error msg)
    ∧ (∃ msg, datapress_import_after_normalize ext rest pkg
        = .objectError msg) := by
  have hrm := removeNones_state pkg hnd hstate
  have hpart1 : ∀ p', datapress_normalize_steps ext pkg = .ok p' →
      dget p' "state" = none
      ∧ datapress_to_ckan ext pkg = .error "KeyError: state" := by
    intro p' hok
    have hstate' : dget p' "state" = none := by
      rw [normalize_steps_state ext pkg p' hok, hrm]
    refine ⟨hstate', ?_⟩
    rw [datapress_to_ckan, hok]
    have hdel : ddel p' "state" = none := by
      rw [ddel, hstate']
    show (match ddel p' "state" with
      | none => Except.error "KeyError: state"
      | some p2 => Except.ok p2) = Except.error "KeyError: state"
    rw [hdel]
  have hpart2 : ∃ msg, datapress_to_ckan ext pkg = .error msg := by
    cases hsteps : datapress_normalize_steps ext pkg with
    | error msg =>
      refine ⟨msg, ?_⟩
      rw [datapress_to_ckan, hsteps]
      rfl
    | ok p' => exact ⟨"KeyError: state", (hpart1 p' hsteps).2⟩
  refine ⟨hpart1, hpart2, ?_⟩
  obtain ⟨msg, hmsg⟩ := hpart2
  refine ⟨msg, ?_⟩
  rw [datapress_import_after_normalize, hmsg]

/-- Black-box collaborators for the C10 witness: identity encoders, an
always-valid name validator, and constant format probes. -/
def extC10 : DatapressExt :=
  { quoteSafeAt := fun s => s
    quotePlain := fun s => s
    nameValidatorOk := fun _ => true
    formatFromUrl := fun _ => "data"
    guessImageFormat := fun _ => "image" }

/-- A well-formed upstream record without a `state` key. -/
def pkgC10 : PDict :=
  [("id", PVal.str "abc"), ("name", PVal.str "pkg"),
   ("metadata_modified", PVal.str "2023-06-27T10:45:57.284Z"),
   ("metadata_created", PVal.str "2023-06-27T10:45:57.284Z")]

/-- C10 witness: on a concrete record with no `state` key the
normalization evaluates to the `KeyError: state` failure and the import
stage records an object error. -/
theorem missing_state_fails_normalization_witness :
    datapress_to_ckan extC10 pkgC10 = .error "KeyError: state"
    ∧ (∃ msg, datapress_import_after_normalize extC10 (fun p => p) pkgC10
        = .objectError msg) :=
  ⟨rfl,
    (missing_state_fails_normalization extC10 (fun p => p) pkgC10
      (by decide) (Or.inl rfl)).2.2⟩

end DflHarvester
